import Mathlib

/-!
Verification of `sched/module/mod_sections.c` (NuttX module loader,
section-table resolver) against its natural-language specification.

The C code is shallowly embedded below.  Machine integers are modelled as
`Nat`; the one place where the C arithmetic can wrap (the 32-bit `size_t` /
`Elf32_Off` computation guarding `mod_loadshdrs`) carries an explicit
`% 2 ^ 32`.  The resolver's read loop need not terminate, so it is embedded
fuel-based: a `none` result means the fuel ran out, i.e. the loop was still
running.  External collaborators of this file's code (`mod_read`,
`mod_reallocbuffer`, `kmm_malloc`, the `Elf32` field types) live elsewhere in
the repository and are modelled from the spec where noted.
-/

/-- Section header record (`Elf32_Shdr`): the two fields this code reads.
`sh_name` is the offset of the section's name inside the string-table
section's data; `sh_offset` is the file offset of the section's data. -/
structure Shdr where
  sh_name : Nat
  sh_offset : Nat
deriving Repr, DecidableEq

/-- Load-session state (`struct mod_loadinfo_s`, the fields used by
`mod_sectname` and `mod_findsection`).  `file` is the byte content of the
module file, so the session's `filelen` field is `file.length`.  `failAt`
models injected Bounded Reader I/O failures: `failAt offset len = some e`
makes the read of `len` bytes at `offset` fail with negated errno `e`.
`e_shstrndx` and `e_shnum` are the file-header fields, `shdrs` the loaded
section-header array, `iobuffer`/`buflen` the working buffer and its
capacity, and `bufferincr` the configured growth constant
(`CONFIG_MODULE_BUFFERINCR`). -/
structure LoadInfo where
  file : List Nat
  failAt : Nat → Nat → Option Int
  e_shstrndx : Nat
  e_shnum : Nat
  shdrs : List Shdr
  iobuffer : List Nat
  buflen : Nat
  bufferincr : Nat

/-- The session's `filelen` field: length of the module file. -/
def LoadInfo.filelen (l : LoadInfo) : Nat :=
  l.file.length

/-- Modelled from the spec: the Bounded Reader `mod_read` (implemented
elsewhere in the repository) fills exactly `readlen` bytes of the buffer from
the file starting at byte `offset`; it fails, without partially filling, on
any I/O error (here: an injected `failAt` failure) or out-of-range request.
On success it returns the bytes read. -/
def mod_read (l : LoadInfo) (readlen offset : Nat) : Except Int (List Nat) :=
  match l.failAt offset readlen with
  | some e => .error e
  | none =>
    if offset + readlen ≤ l.file.length then
      .ok ((l.file.drop offset).take readlen)
    else
      .error (-5)

/-- Modelled from the spec: `mod_reallocbuffer` (implemented elsewhere in the
repository) grows the working buffer by `incr` bytes, preserving its current
contents; the new bytes are uninitialised (modelled as zero, and always
overwritten before being scanned).  Allocation failure is not modelled. -/
def reallocBuffer (buffer : List Nat) (incr : Nat) : List Nat :=
  buffer ++ List.replicate incr 0

/-- Write `data` into `buf` starting at position `pos`: the C read fills
`&iobuffer[bytesread]`. -/
def writeBytes (buf : List Nat) (pos : Nat) (data : List Nat) : List Nat :=
  buf.take pos ++ data ++ buf.drop (pos + data.length)

/-- Outcome of one `mod_sectname` call: the C `int` return value (`0` is OK,
negative is a negated errno) together with the session state the call leaves
behind — working buffer contents, its capacity, and how many times the
buffer was grown. -/
structure SectOut where
  ret : Int
  buffer : List Nat
  buflen : Nat
  growths : Nat
deriving Repr, DecidableEq

/-- The read loop of `mod_sectname` (mod_sections.c lines 112-157).  Embedded
fuel-based because nothing in the code forces this loop to terminate; a
`none` first component means the fuel ran out with the loop still running.
The second component is the trace of reads issued, as
`(bytesread, readlen, buflen)` triples recorded at the moment `mod_read` is
called.  The C body computes `readlen = buflen - bytesread`, then inside
`if (offset + readlen > filelen)` either returns `-EINVAL` (when
`filelen <= offset`) or clips `readlen` to `filelen - offset`; the two
nested `if`s are rendered here as an early error test followed by a clipped
`readlen` selection, which takes the same branch on every input. -/
def sectnameLoop (l : LoadInfo) (offset : Nat) :
    Nat → List Nat → Nat → Nat → Nat → List (Nat × Nat × Nat) →
    Option SectOut × List (Nat × Nat × Nat)
  | 0, _, _, _, _, trace => (none, trace)
  | fuel + 1, buffer, buflen, bytesread, growths, trace =>
    let readlen0 := buflen - bytesread
    if l.filelen < offset + readlen0 ∧ l.filelen ≤ offset then
      (some ⟨-22, buffer, buflen, growths⟩, trace)
    else
      let readlen := if l.filelen < offset + readlen0 then l.filelen - offset else readlen0
      let trace1 := trace ++ [(bytesread, readlen, buflen)]
      match mod_read l readlen offset with
      | .error e => (some ⟨e, buffer, buflen, growths⟩, trace1)
      | .ok chunk =>
        let buffer1 := writeBytes buffer bytesread chunk
        if chunk.contains 0 then
          (some ⟨0, buffer1, buflen, growths⟩, trace1)
        else
          sectnameLoop l offset fuel (reallocBuffer buffer1 l.bufferincr)
            (buflen + l.bufferincr) (bytesread + readlen) (growths + 1) trace1

/-- The absolute file offset of a section's name string, as `mod_sectname`
computes it (line 105): the string-table section's `sh_offset` plus the
record's `sh_name`.  The string-table section header is
`loadinfo->shdr[shstrndx]` (no bounds check in the C; out-of-range indices
read a default record here). -/
def offsetOf (l : LoadInfo) (shdr : Shdr) : Nat :=
  (l.shdrs.getD l.e_shstrndx ⟨0, 0⟩).sh_offset + shdr.sh_name

/-- `mod_sectname` (mod_sections.c lines 69-162): resolve one section-header
record's name into the working buffer.  `SHN_UNDEF = 0` is the "no string
table" sentinel, rejected with `-EINVAL`.  Returns the loop result and the
trace of reads issued. -/
def mod_sectname (l : LoadInfo) (shdr : Shdr) (fuel : Nat) :
    Option SectOut × List (Nat × Nat × Nat) :=
  if l.e_shstrndx = 0 then
    (some ⟨-22, l.iobuffer, l.buflen, 0⟩, [])
  else
    sectnameLoop l (offsetOf l shdr) fuel l.iobuffer l.buflen 0 0 []

/-- The C string held in a buffer: its bytes up to the first NUL.  This is
what `strcmp(iobuffer, sectname)` compares against the requested name. -/
def cstring (buf : List Nat) : List Nat :=
  buf.takeWhile (fun b => b != 0)

/-- Modelled from the spec's words (for comparison with what the code
computes): the true name of a section is the NUL-terminated byte sequence
found in the file at string-table `data_offset` plus the record's
`name_offset`. -/
def specSectionName (file : List Nat) (stroff nameoff : Nat) : List Nat :=
  (file.drop (stroff + nameoff)).takeWhile (fun b => b != 0)

/-- Outcome of one `mod_findsection` call: the C `int` return value (a
section index when non-negative, a negated errno when negative) together
with the working-buffer state the call leaves in the session. -/
structure FindOut where
  ret : Int
  iobuffer : List Nat
  buflen : Nat
deriving Repr, DecidableEq

/-- The search loop of `mod_findsection` (mod_sections.c lines 251-274),
scanning indices upward from `i`.  Each iteration resolves the name of
section `i` with `mod_sectname` (whose buffer growth persists in the
session), propagates a negative return immediately, and otherwise compares
the resolved name with `strcmp`.  Falling off the loop yields `-ENOENT`.
The second component is the trace of per-index resolver outcomes.  A `none`
first component means the resolver ran out of fuel at the current index.
`steps` is a structural bound on the remaining iterations;
`mod_findsection` passes `e_shnum`, which always suffices because `i`
starts at 0 and increases by one per iteration while `e_shnum` never
changes, so exhausting `steps` with the loop still due to run is
unreachable from `mod_findsection` (it is reported like fuel exhaustion,
as `none`). -/
def findAux (name : List Nat) (fuel : Nat) :
    Nat → LoadInfo → Nat → Option FindOut × List SectOut
  | 0, l, i =>
    if i < l.e_shnum then (none, []) else (some ⟨-2, l.iobuffer, l.buflen⟩, [])
  | steps + 1, l, i =>
    if i < l.e_shnum then
      match mod_sectname l (l.shdrs.getD i ⟨0, 0⟩) fuel with
      | (none, _) => (none, [])
      | (some out, _) =>
        if out.ret < 0 then
          (some ⟨out.ret, out.buffer, out.buflen⟩, [out])
        else
          if cstring out.buffer = name then
            (some ⟨Int.ofNat i, out.buffer, out.buflen⟩, [out])
          else
            let r := findAux name fuel steps
              { l with iobuffer := out.buffer, buflen := out.buflen } (i + 1)
            (r.1, out :: r.2)
    else
      (some ⟨-2, l.iobuffer, l.buflen⟩, [])

/-- `mod_findsection` (mod_sections.c lines 242-279): search the
section-header array for a section named `name`. -/
def mod_findsection (l : LoadInfo) (name : List Nat) (fuel : Nat) :
    Option FindOut × List SectOut :=
  findAux name fuel l.e_shnum l 0

/-- Load-session state for `mod_loadshdrs` (`struct mod_loadinfo_s`, the
fields that function uses).  `e_shoff`, `e_shentsize`, `e_shnum` are the
file-header fields (`Elf32_Off`, i.e. `uint32`, and two `Elf32_Half`, i.e.
`uint16`); `shdr` is the session's section-header array, `none` while
unset.  `failAt` injects Bounded Reader failures as in `LoadInfo`. -/
structure LoadInfoH where
  file : List Nat
  failAt : Nat → Nat → Option Int
  e_shoff : Nat
  e_shentsize : Nat
  e_shnum : Nat
  shdr : Option (List Nat)

/-- Modelled from the spec: the Bounded Reader, as `mod_read`, for the
`mod_loadshdrs` session view. -/
def mod_readH (l : LoadInfoH) (readlen offset : Nat) : Except Int (List Nat) :=
  match l.failAt offset readlen with
  | some e => .error e
  | none =>
    if offset + readlen ≤ l.file.length then
      .ok ((l.file.drop offset).take readlen)
    else
      .error (-5)

/-- `shdrsize` as computed at mod_sections.c line 197: the two `uint16`
header fields are cast to `size_t` — 32 bits on the targets this loader is
built for — and multiplied, so the product is taken modulo `2 ^ 32`. -/
def shdrsizeC (entsize shnum : Nat) : Nat :=
  (entsize * shnum) % 4294967296

/-- The truncation test at mod_sections.c line 198:
`ehdr.e_shoff + shdrsize > filelen`, computed in the C's 32-bit unsigned
arithmetic, so the sum wraps modulo `2 ^ 32`. -/
def shoffCheck (shoff size filelen : Nat) : Bool :=
  filelen < (shoff + size) % 4294967296

/-- Outcome of one `mod_loadshdrs` call: the C `int` return value, the
session's section-header array afterwards, and whether an allocation
(`kmm_malloc`) and a bounded read were performed. -/
structure ShdrsOut where
  ret : Int
  shdr : Option (List Nat)
  didAlloc : Bool
  didRead : Bool
deriving Repr, DecidableEq

/-- `mod_loadshdrs` (mod_sections.c lines 180-224): validate the advertised
section-header table, allocate a buffer of `shdrsize` bytes, store it as the
session's `shdr` array, and read the table into it.  The allocation
(`kmm_malloc`, external; modelled from the spec as always succeeding) is
assigned to `loadinfo->shdr` before the read, and a failing read returns its
error with `loadinfo->shdr` still set. -/
def mod_loadshdrs (l : LoadInfoH) : ShdrsOut :=
  if l.e_shnum < 1 then
    ⟨-22, l.shdr, false, false⟩
  else
    let shdrsize := shdrsizeC l.e_shentsize l.e_shnum
    if shoffCheck l.e_shoff shdrsize l.file.length then
      ⟨-29, l.shdr, false, false⟩
    else
      match mod_readH l shdrsize l.e_shoff with
      | .error e => ⟨e, some (List.replicate shdrsize 0), true, true⟩
      | .ok bytes => ⟨0, some bytes, true, true⟩

/-- One scan-trace entry is a successful mismatch: the resolver returned 0
and the resolved C string differs from the requested name. -/
def okMismatch (name : List Nat) (o : SectOut) : Bool :=
  (o.ret == 0) && (cstring o.buffer != name)

/-- C7's exhaustiveness property, as a decidable check: if the scan
returned `-ENOENT` (`-2`), then its trace holds one successful-mismatch
entry for every section index it had left to scan — no index was
skipped. -/
def notFoundExhaustive (name : List Nat) (count : Nat)
    (r : Option FindOut) (tr : List SectOut) : Bool :=
  match r with
  | some fo =>
    if fo.ret == -2 then (tr.length == count) && tr.all (okMismatch name)
    else true
  | none => true

/-- C7's propagation property, as a decidable check: every scan-trace entry
before the last is a successful mismatch, and if the last entry is a
resolver failure then the scan's result is exactly that failure with the
resolver's final buffer state — a failure aborts the scan at once and is
returned as itself. -/
def errorsTerminal (name : List Nat) (r : Option FindOut) :
    List SectOut → Bool
  | [] => true
  | [o] => if o.ret < 0 then r == some ⟨o.ret, o.buffer, o.buflen⟩ else true
  | o :: rest => okMismatch name o && errorsTerminal name r rest

/-- Concrete session for C1: a 4-byte file `aaaa` with no NUL anywhere, the
string table at offset 0 (section header index 1), a 2-byte working buffer
and growth increment 1. -/
def c1ldi : LoadInfo :=
  ⟨[97, 97, 97, 97], fun _ _ => none, 1, 2, [⟨0, 0⟩, ⟨0, 0⟩], [0, 0], 2, 1⟩

/-- Concrete session for C2: file `ab`NUL`qrs`, string table at offset 0,
working buffer of 2 bytes, growth increment 4.  The name `ab` plus its NUL
is 3 bytes, one more than the buffer holds. -/
def c2ldi : LoadInfo :=
  ⟨[97, 98, 0, 113, 114, 115], fun _ _ => none, 1, 2, [⟨0, 0⟩, ⟨0, 0⟩], [0, 0], 2, 4⟩

/-- Concrete session for C6: file `ab`NUL`abab`NUL, section 0 named at
string-table offset 0 (name `ab`), section 1 (the string table itself,
`sh_offset = 0`) named at offset 3 (name `abab`). -/
def c6ldi : LoadInfo :=
  ⟨[97, 98, 0, 97, 98, 97, 98, 0], fun _ _ => none, 1, 2, [⟨0, 0⟩, ⟨3, 0⟩], [0, 0], 2, 4⟩

/-- Concrete session for C8: file `ab`NUL`qrst`NUL, section 0 named `ab`
(offset 0), section 1 (the string table) named `qrst` (offset 3); 2-byte
working buffer, growth increment 4. -/
def c8ldi : LoadInfo :=
  ⟨[97, 98, 0, 113, 114, 115, 116, 0], fun _ _ => none, 1, 2, [⟨0, 0⟩, ⟨3, 0⟩], [0, 0], 2, 4⟩

/-- The C8 session as the first `mod_findsection` call leaves it: the
working buffer grew to 6 bytes and holds the first call's resolved bytes. -/
def c8after : LoadInfo :=
  { c8ldi with iobuffer := [97, 98, 97, 98, 0, 113], buflen := 6 }

/-- Concrete session for C10's witness: file `ab`NUL`c`, string table at
offset 0, 3-byte working buffer, so the name `ab` and its NUL fit in one
read window. -/
def c10ldi : LoadInfo :=
  ⟨[97, 98, 0, 99], fun _ _ => none, 1, 2, [⟨0, 0⟩, ⟨0, 0⟩], [0, 0, 0], 3, 4⟩

/-- Concrete session for C7's witness: file `ab`NUL`c`, two sections both
named at string-table offset 0, names resolving in one read; searching for
`x` scans both and reports NotFound. -/
def c7ldi : LoadInfo :=
  ⟨[97, 98, 0, 99], fun _ _ => none, 1, 2, [⟨0, 0⟩, ⟨0, 0⟩], [0, 0, 0], 3, 4⟩

/-- Concrete session for C3's counterexample: a 50-byte file whose bounded
read of the 16-byte section-header table at offset 10 fails with `-5`
(`-EIO`). -/
def c3ldi : LoadInfoH :=
  ⟨List.replicate 50 0, fun o n => if o = 10 ∧ n = 16 then some (-5) else none, 10, 8, 2, none⟩

/-- Concrete healthy session for C3's amended-claim witness: same geometry
as `c3ldi` but with no injected reader failure. -/
def c3wldi : LoadInfoH :=
  ⟨List.replicate 50 0, fun _ _ => none, 10, 8, 2, none⟩

/-- Concrete session for C4/C5: a 50-byte file whose header advertises a
40-byte section-header table at offset `2 ^ 32 - 6`, so the exact sum
`e_shoff + shdrsize` exceeds the file length but the 32-bit sum wraps
to 34. -/
def c4ldi : LoadInfoH :=
  ⟨List.replicate 50 0, fun _ _ => none, 4294967290, 8, 5, none⟩

/-- Concrete truncated session for C4's amended-claim witness: a 16-byte
table advertised at offset 100 of a 50-byte file, with no wraparound. -/
def c4wldi : LoadInfoH :=
  ⟨List.replicate 50 0, fun _ _ => none, 100, 8, 2, none⟩

/-! ## Helper lemmas about the resolver's read loop -/

/-- If no byte of the file from `offset` on is NUL, then no chunk read from
`offset` contains a NUL. -/
lemma chunk_no_nul (file : List Nat) (offset readlen : Nat)
    (h : ∀ k, k < file.length → offset ≤ k → file.getD k 0 ≠ 0) :
    ((file.drop offset).take readlen).contains 0 = false := by
  by_contra hb
  have hmem : (0 : Nat) ∈ (file.drop offset).take readlen := by
    have hcc : ((file.drop offset).take readlen).contains 0 = true := by
      cases hc2 : ((file.drop offset).take readlen).contains 0
      · exact absurd hc2 hb
      · rfl
    simpa using hcc
  obtain ⟨i, hi, hget⟩ := List.mem_iff_getElem.mp hmem
  have hlen : i < readlen ∧ offset + i < file.length := by
    have h2 := hi
    simp [List.length_take, List.length_drop] at h2
    omega
  have hval : file.getD (offset + i) 0 = 0 := by
    have hgl : file.get ⟨offset + i, hlen.2⟩ = (0 : Nat) := by
      simpa [List.get_eq_getElem, List.getElem_take, List.getElem_drop] using hget
    rw [List.get_eq_getElem] at hgl
    simp [List.getD_eq_getElem?_getD, List.getElem?_eq_getElem hlen.2, hgl]
  exact h (offset + i) hlen.2 (Nat.le_add_right _ _) hval

/-- When the name's start offset is inside the file but no NUL byte follows
it before end of file, the read loop never returns: its offset never
advances, so it re-reads the same NUL-free bytes and grows forever. -/
lemma sectnameLoop_no_nul_none (l : LoadInfo) (offset : Nat)
    (hoff : offset < l.filelen)
    (hz : ∀ k, k < l.filelen → offset ≤ k → l.file.getD k 0 ≠ 0)
    (hr : ∀ o n, l.failAt o n = none) :
    ∀ fuel buffer buflen bytesread growths trace,
      (sectnameLoop l offset fuel buffer buflen bytesread growths trace).1 = none := by
  intro fuel
  induction fuel with
  | zero => intro buffer buflen bytesread growths trace; rfl
  | succ fuel ih =>
    intro buffer buflen bytesread growths trace
    simp only [sectnameLoop]
    have hnoterr : ¬ (l.filelen < offset + (buflen - bytesread) ∧ l.filelen ≤ offset) := by
      omega
    rw [if_neg hnoterr]
    have hle : offset +
        (if l.filelen < offset + (buflen - bytesread) then l.filelen - offset
          else buflen - bytesread) ≤ l.file.length := by
      have hfl : l.file.length = l.filelen := rfl
      rw [hfl]
      split <;> omega
    have hread : mod_read l
        (if l.filelen < offset + (buflen - bytesread) then l.filelen - offset
          else buflen - bytesread) offset =
        .ok ((l.file.drop offset).take
          (if l.filelen < offset + (buflen - bytesread) then l.filelen - offset
            else buflen - bytesread)) := by
      rw [mod_read, hr, if_pos hle]
    rw [hread]
    simp only [chunk_no_nul l.file offset _ hz, Bool.false_eq_true, if_false]
    exact ih _ _ _ _ _

/-- Every read the loop issues writes inside the buffer's current capacity:
each recorded `(bytesread, readlen, buflen)` satisfies
`bytesread + readlen ≤ buflen`. -/
lemma sectnameLoop_trace_bounds (l : LoadInfo) (offset : Nat) :
    ∀ fuel buffer buflen bytesread growths trace,
      bytesread ≤ buflen →
      trace.all (fun t => decide (t.1 + t.2.1 ≤ t.2.2)) = true →
      ((sectnameLoop l offset fuel buffer buflen bytesread growths trace).2).all
        (fun t => decide (t.1 + t.2.1 ≤ t.2.2)) = true := by
  intro fuel
  induction fuel with
  | zero =>
    intro buffer buflen bytesread growths trace h ht
    simpa [sectnameLoop] using ht
  | succ fuel ih =>
    intro buffer buflen bytesread growths trace h ht
    simp only [sectnameLoop]
    split
    · simpa using ht
    · next hcond =>
      have hbound : bytesread +
          (if l.filelen < offset + (buflen - bytesread) then l.filelen - offset
            else buflen - bytesread) ≤ buflen := by
        split <;> omega
      have ht1 : (trace ++ [(bytesread,
          (if l.filelen < offset + (buflen - bytesread) then l.filelen - offset
            else buflen - bytesread), buflen)]).all
          (fun t => decide (t.1 + t.2.1 ≤ t.2.2)) = true := by
        simp_all
      cases hrd : mod_read l
          (if l.filelen < offset + (buflen - bytesread) then l.filelen - offset
            else buflen - bytesread) offset with
      | error e => simpa [hrd] using ht1
      | ok chunk =>
        dsimp only
        split
        · simpa using ht1
        · exact ih _ _ _ _ _ (by omega) ht1

/-! ## Claim theorems -/

/-- C1: the claim states that when the computed name offset is inside the
file but no NUL byte occurs from there to end of file, `mod_sectname`
terminates and fails with `UnexpectedEof`.  The code does the opposite: it
never advances `offset` past the bytes already scanned, so it re-reads the
same NUL-free range forever, growing the buffer on every iteration — for
every amount of fuel the loop is still running. -/
theorem mod_sectname_no_nul_runs_forever (l : LoadInfo) (shdr : Shdr)
    (hs : l.e_shstrndx ≠ 0)
    (hoff : offsetOf l shdr < l.filelen)
    (hz : ∀ k, k < l.filelen → offsetOf l shdr ≤ k → l.file.getD k 0 ≠ 0)
    (hr : ∀ o n, l.failAt o n = none) :
    ∀ fuel, (mod_sectname l shdr fuel).1 = none := by
  intro fuel
  rw [mod_sectname, if_neg hs]
  exact sectnameLoop_no_nul_none l (offsetOf l shdr) hoff hz hr fuel _ _ _ _ _

/-- C1 witness: on the concrete NUL-free session `c1ldi` the resolver is
still running after 100 loop iterations. -/
theorem mod_sectname_no_nul_runs_forever_witness :
    (mod_sectname c1ldi ⟨0, 0⟩ 100).1 = none :=
  mod_sectname_no_nul_runs_forever c1ldi ⟨0, 0⟩ (by decide) (by decide)
    (by decide) (fun _ _ => rfl) 100

/-- C2: the claim states that a name one byte longer than the working
buffer, fully inside the file, is resolved after one growth cycle with the
buffer holding the name and its NUL from offset 0, earlier bytes
uncorrupted and later reads appending rather than duplicating.  On the
concrete session `c2ldi` (buffer 2, name `ab` + NUL = 3 bytes at offset 0)
the code does grow once and return success, but the second read re-reads
file offset 0 instead of continuing at offset 2, so the buffer ends up
holding `a b a b NUL q` — the C string it presents is `abab`, not the
section's true name `ab`. -/
theorem mod_sectname_growth_duplicates :
    (mod_sectname c2ldi ⟨0, 0⟩ 5).1 =
      some ⟨0, [97, 98, 97, 98, 0, 113], 6, 1⟩ ∧
    cstring [97, 98, 97, 98, 0, 113] = [97, 98, 97, 98] ∧
    specSectionName c2ldi.file 0 0 = [97, 98] ∧
    ([97, 98, 97, 98] : List Nat) ≠ [97, 98] := by
  refine ⟨by decide, by decide, by decide, by decide⟩

/-- C9: every read the resolver's loop issues stays inside the working
buffer's current capacity — each recorded `(bytesread, readlen, buflen)`
read satisfies `bytesread + readlen ≤ buflen`, for every session, section
header and fuel. -/
theorem mod_sectname_writes_in_bounds (l : LoadInfo) (shdr : Shdr) (fuel : Nat) :
    ((mod_sectname l shdr fuel).2).all (fun t => decide (t.1 + t.2.1 ≤ t.2.2)) = true := by
  rw [mod_sectname]
  split
  · rfl
  · exact sectnameLoop_trace_bounds l (offsetOf l shdr) fuel l.iobuffer l.buflen 0 0 []
      (Nat.zero_le _) rfl

/-- If position `offset + k` of the file holds a NUL and lies both inside
the file and inside the chunk, the chunk read at `offset` contains a NUL. -/
lemma chunk_has_nul (file : List Nat) (offset readlen k : Nat)
    (hk : k < readlen) (hin : offset + k < file.length)
    (hz : file.getD (offset + k) 0 = 0) :
    ((file.drop offset).take readlen).contains 0 = true := by
  have hmem : (0 : Nat) ∈ (file.drop offset).take readlen := by
    rw [List.mem_iff_getElem]
    have hlen : k < ((file.drop offset).take readlen).length := by
      simp only [List.length_take, List.length_drop]
      omega
    refine ⟨k, hlen, ?_⟩
    have hg : file.get ⟨offset + k, hin⟩ = 0 := by
      simpa [List.get_eq_getElem, List.getD_eq_getElem?_getD,
        List.getElem?_eq_getElem hin] using hz
    rw [List.get_eq_getElem] at hg
    simpa [List.getElem_take, List.getElem_drop] using hg
  simpa using hmem

/-- C10: if the section name and its NUL terminator lie within the first
`min buflen (filelen - offset)` bytes from the computed name offset — i.e.
a NUL occurs inside the first read window — then `mod_sectname` succeeds
after exactly one bounded read, with no growth and the buffer capacity
unchanged. -/
theorem mod_sectname_single_read (l : LoadInfo) (shdr : Shdr) (fuel : Nat)
    (hs : l.e_shstrndx ≠ 0)
    (hr : ∀ o n, l.failAt o n = none)
    (hk : ∃ k, k < min l.buflen (l.filelen - offsetOf l shdr) ∧
      l.file.getD (offsetOf l shdr + k) 0 = 0) :
    ((mod_sectname l shdr (fuel + 1)).1.map SectOut.ret) = some 0 ∧
    ((mod_sectname l shdr (fuel + 1)).1.map SectOut.buflen) = some l.buflen ∧
    ((mod_sectname l shdr (fuel + 1)).1.map SectOut.growths) = some 0 ∧
    (mod_sectname l shdr (fuel + 1)).2.length = 1 := by
  obtain ⟨k, hk1, hk2⟩ := hk
  have hoff : offsetOf l shdr < l.filelen := by omega
  rw [mod_sectname, if_neg hs]
  simp only [sectnameLoop]
  have hnoterr : ¬ (l.filelen < offsetOf l shdr + (l.buflen - 0) ∧
      l.filelen ≤ offsetOf l shdr) := by
    omega
  rw [if_neg hnoterr]
  have hrlen : (if l.filelen < offsetOf l shdr + (l.buflen - 0) then
      l.filelen - offsetOf l shdr else l.buflen - 0) =
      min l.buflen (l.filelen - offsetOf l shdr) := by
    split <;> omega
  rw [hrlen]
  have hfl : l.file.length = l.filelen := rfl
  have hle : offsetOf l shdr + min l.buflen (l.filelen - offsetOf l shdr) ≤
      l.file.length := by
    omega
  have hread : mod_read l (min l.buflen (l.filelen - offsetOf l shdr))
      (offsetOf l shdr) =
      .ok ((l.file.drop (offsetOf l shdr)).take
        (min l.buflen (l.filelen - offsetOf l shdr))) := by
    rw [mod_read, hr, if_pos hle]
  rw [hread]
  dsimp only
  rw [if_pos (chunk_has_nul l.file (offsetOf l shdr) _ k (by omega) (by omega) hk2)]
  refine ⟨rfl, rfl, rfl, rfl⟩

/-- C10 witness: on `c10ldi` (3-byte buffer, name `ab` + NUL within the
window) the resolver succeeds in one read without growing. -/
theorem mod_sectname_single_read_witness :
    ((mod_sectname c10ldi ⟨0, 0⟩ 3).1.map SectOut.ret) = some 0 ∧
    ((mod_sectname c10ldi ⟨0, 0⟩ 3).1.map SectOut.buflen) = some c10ldi.buflen ∧
    ((mod_sectname c10ldi ⟨0, 0⟩ 3).1.map SectOut.growths) = some 0 ∧
    (mod_sectname c10ldi ⟨0, 0⟩ 3).2.length = 1 :=
  mod_sectname_single_read c10ldi ⟨0, 0⟩ 2 (by decide) (fun _ _ => rfl)
    ⟨2, by decide, by decide⟩

/-- A failing `mod_readH` returns a negative code, provided injected reader
failures carry negative codes (the Bounded Reader returns negated errnos). -/
lemma mod_readH_error_neg (l : LoadInfoH)
    (hf : ∀ o n e, l.failAt o n = some e → e < 0)
    (n o : Nat) (e : Int) (he : mod_readH l n o = .error e) : e < 0 := by
  rw [mod_readH] at he
  cases hfa : l.failAt o n with
  | some e2 =>
    rw [hfa] at he
    injection he with h2
    exact h2 ▸ hf o n e2 hfa
  | none =>
    rw [hfa] at he
    dsimp only at he
    by_cases hle : o + n ≤ l.file.length
    · rw [if_pos hle] at he
      cases he
    · rw [if_neg hle] at he
      injection he with h5
      omega

/-- A successful `mod_readH` returns exactly the requested file slice. -/
lemma mod_readH_ok_slice (l : LoadInfoH) (n o : Nat) (bytes : List Nat)
    (he : mod_readH l n o = .ok bytes) : bytes = (l.file.drop o).take n := by
  rw [mod_readH] at he
  cases hfa : l.failAt o n with
  | some e2 => rw [hfa] at he; cases he
  | none =>
    rw [hfa] at he
    dsimp only at he
    by_cases hle : o + n ≤ l.file.length
    · rw [if_pos hle] at he
      injection he with hb
      exact hb.symm
    · rw [if_neg hle] at he
      cases he

/-- C3 counterexample: on `c3ldi` the bounded read of the section-header
table fails with `-5`, yet the session's section-header array is set — the
allocation was stored in `loadinfo->shdr` before the read and is not
cleared on the error path, so an error return and a set array coexist. -/
theorem mod_loadshdrs_read_failure_leaves_shdr_set :
    (mod_loadshdrs c3ldi).ret = -5 ∧ (mod_loadshdrs c3ldi).shdr ≠ none := by
  refine ⟨by decide, by decide⟩

/-- C3 as amended: `mod_loadshdrs` has no partial-success state only on the
paths that fail before the allocation — on success the array holds the whole
table, and on failure the array is unset exactly when no read was performed;
when the bounded read fails, the array has already been set to the
allocated buffer and stays set. -/
theorem mod_loadshdrs_partial_state (l : LoadInfoH)
    (h : l.shdr = none)
    (hf : ∀ o n e, l.failAt o n = some e → e < 0) :
    ((mod_loadshdrs l).ret = 0 →
      (mod_loadshdrs l).shdr =
        some ((l.file.drop l.e_shoff).take (shdrsizeC l.e_shentsize l.e_shnum))) ∧
    ((mod_loadshdrs l).ret ≠ 0 →
      ((mod_loadshdrs l).shdr = none ↔ (mod_loadshdrs l).didRead = false)) := by
  simp only [mod_loadshdrs]
  split
  · simp [h]
  · split
    · simp [h]
    · cases hrd : mod_readH l (shdrsizeC l.e_shentsize l.e_shnum) l.e_shoff with
      | error e =>
        have hneg : e < 0 := mod_readH_error_neg l hf _ _ e hrd
        dsimp only
        constructor
        · intro h0
          omega
        · intro _
          simp
      | ok bytes =>
        dsimp only
        constructor
        · intro _
          rw [mod_readH_ok_slice l _ _ bytes hrd]
        · intro h0
          exact absurd rfl h0

/-- C3 amended-claim witness: the healthy session `c3wldi` loads its whole
16-byte table. -/
theorem mod_loadshdrs_partial_state_witness :
    ((mod_loadshdrs c3wldi).ret = 0 →
      (mod_loadshdrs c3wldi).shdr =
        some ((c3wldi.file.drop c3wldi.e_shoff).take
          (shdrsizeC c3wldi.e_shentsize c3wldi.e_shnum))) ∧
    ((mod_loadshdrs c3wldi).ret ≠ 0 →
      ((mod_loadshdrs c3wldi).shdr = none ↔ (mod_loadshdrs c3wldi).didRead = false)) :=
  mod_loadshdrs_partial_state c3wldi rfl (fun _ _ _ hx => Option.noConfusion hx)

/-- C4 counterexample: on `c4ldi` the exact sum
`e_shoff + e_shentsize * e_shnum` exceeds the 50-byte file length, but the
32-bit sum wraps to 34, so `mod_loadshdrs` does not fail with
`TruncatedFile` (`-ESPIPE`) and performs both the allocation and the
bounded read. -/
theorem mod_loadshdrs_wraparound_bypasses_check :
    c4ldi.file.length < c4ldi.e_shoff + shdrsizeC c4ldi.e_shentsize c4ldi.e_shnum ∧
    (mod_loadshdrs c4ldi).ret ≠ -29 ∧
    (mod_loadshdrs c4ldi).didAlloc = true ∧
    (mod_loadshdrs c4ldi).didRead = true := by
  refine ⟨by decide, by decide, by decide, by decide⟩

/-- C4 as amended: for every header with at least one section whose
`e_shoff + e_shentsize * e_shnum` exceeds the file length *and does not
overflow 32 bits*, `mod_loadshdrs` fails with `-ESPIPE` (TruncatedFile),
leaves the section-header array untouched, and performs no allocation and
no read. -/
theorem mod_loadshdrs_truncated_no_side_effects (l : LoadInfoH)
    (h1 : 1 ≤ l.e_shnum)
    (h2 : l.e_shoff + shdrsizeC l.e_shentsize l.e_shnum < 4294967296)
    (h3 : l.file.length < l.e_shoff + shdrsizeC l.e_shentsize l.e_shnum) :
    mod_loadshdrs l = ⟨-29, l.shdr, false, false⟩ := by
  have h0 : ¬ (l.e_shnum < 1) := by omega
  have hchk : shoffCheck l.e_shoff (shdrsizeC l.e_shentsize l.e_shnum)
      l.file.length = true := by
    rw [shoffCheck]
    exact decide_eq_true (by rw [Nat.mod_eq_of_lt h2]; exact h3)
  simp [mod_loadshdrs, h0, hchk]

/-- C4 amended-claim witness: the truncated session `c4wldi` (16-byte table
at offset 100 of a 50-byte file, no overflow) fails with `-ESPIPE` and no
side effects. -/
theorem mod_loadshdrs_truncated_no_side_effects_witness :
    mod_loadshdrs c4wldi = ⟨-29, none, false, false⟩ :=
  mod_loadshdrs_truncated_no_side_effects c4wldi (by decide) (by decide) (by decide)

/-- C5 counterexample: with representable header fields
(`e_shoff = 2 ^ 32 - 6 < 2 ^ 32`, `e_shentsize = 8 < 2 ^ 16`,
`e_shnum = 5 < 2 ^ 16`) and a 50-byte file, the exact sum exceeds the file
length yet the code's 32-bit comparison says it does not: the comparison is
not mathematically exact for all field values. -/
theorem shdr_check_wraps :
    4294967290 < 4294967296 ∧ 8 < 65536 ∧ 5 < 65536 ∧
    50 < 4294967290 + shdrsizeC 8 5 ∧
    shoffCheck 4294967290 (shdrsizeC 8 5) 50 = false := by
  refine ⟨by decide, by decide, by decide, by decide, by decide⟩

/-- C5 as amended: the multiplication `e_shentsize * e_shnum` is exact (two
`uint16` fields widened to 32-bit `size_t` cannot overflow), but the
addition `e_shoff + shdrsize` is computed modulo `2 ^ 32`, so the
comparison against the file length is exact only when that sum does not
overflow 32 bits. -/
theorem shdr_arith_exact_iff_no_overflow (entsize shnum shoff filelen : Nat)
    (h1 : entsize < 65536) (h2 : shnum < 65536) :
    shdrsizeC entsize shnum = entsize * shnum ∧
    (shoff + entsize * shnum < 4294967296 →
      (shoffCheck shoff (shdrsizeC entsize shnum) filelen = true ↔
        filelen < shoff + entsize * shnum)) := by
  have hm : entsize * shnum < 4294967296 := by
    have hb : entsize * shnum ≤ 65535 * 65535 :=
      Nat.mul_le_mul (by omega) (by omega)
    omega
  constructor
  · rw [shdrsizeC, Nat.mod_eq_of_lt hm]
  · intro hov
    rw [shdrsizeC, Nat.mod_eq_of_lt hm, shoffCheck, Nat.mod_eq_of_lt hov]
    exact ⟨of_decide_eq_true, decide_eq_true⟩

/-- C5 amended-claim witness at small, non-overflowing header values. -/
theorem shdr_arith_exact_iff_no_overflow_witness :
    shdrsizeC 8 2 = 8 * 2 ∧
    (100 + 8 * 2 < 4294967296 →
      (shoffCheck 100 (shdrsizeC 8 2) 50 = true ↔ 50 < 100 + 8 * 2)) :=
  shdr_arith_exact_iff_no_overflow 8 2 100 50 (by decide) (by decide)

/-- C6: the claim states `find_section` returns the lowest index whose
section actually has the requested name.  On `c6ldi` the only section truly
named `abab` (bytes 97 98 97 98) is index 1, and section 0's true name is
`ab`; yet `mod_findsection` returns 0, because while resolving section 0's
name the growth cycle re-reads file offset 0 and manufactures the C string
`abab` in the buffer, which matches the request. -/
theorem mod_findsection_wrong_index :
    ((mod_findsection c6ldi [97, 98, 97, 98] 5).1.map FindOut.ret) = some 0 ∧
    specSectionName c6ldi.file 0 0 = [97, 98] ∧
    specSectionName c6ldi.file 0 3 = [97, 98, 97, 98] ∧
    ([97, 98] : List Nat) ≠ [97, 98, 97, 98] := by
  refine ⟨by decide, by decide, by decide, by decide⟩

/-- C8: the claim states two successive `find_section` calls with the same
name on the same session give the same result.  On `c8ldi`, searching for
`abab` (bytes 97 98 97 98): the first call returns index 0 (the 2-byte
buffer forces a growth cycle whose re-read of offset 0 fabricates the C
string `abab`), and leaves the buffer grown to 6 bytes; the second call on
the session exactly as the first left it (`c8after`) resolves section 0's
name in one 6-byte read as `ab`, matches nothing, and returns `-ENOENT`. -/
theorem mod_findsection_not_idempotent :
    (mod_findsection c8ldi [97, 98, 97, 98] 5).1 =
      some ⟨0, [97, 98, 97, 98, 0, 113], 6⟩ ∧
    c8after = { c8ldi with iobuffer := [97, 98, 97, 98, 0, 113], buflen := 6 } ∧
    ((mod_findsection c8after [97, 98, 97, 98] 5).1.map FindOut.ret) = some (-2) ∧
    ((0 : Int)) ≠ -2 := by
  refine ⟨by decide, rfl, by decide, by decide⟩

/-- A failing `mod_read` returns a negative code other than `-2`
(`-ENOENT`), provided the injected reader failures do: the Bounded Reader
reports I/O failures, not name lookups. -/
lemma mod_read_error_classify (l : LoadInfo)
    (hf : ∀ o n e, l.failAt o n = some e → e < 0 ∧ e ≠ -2)
    (n o : Nat) (e : Int) (he : mod_read l n o = .error e) :
    e < 0 ∧ e ≠ -2 := by
  rw [mod_read] at he
  cases hfa : l.failAt o n with
  | some e2 =>
    rw [hfa] at he
    injection he with h2
    exact h2 ▸ hf o n e2 hfa
  | none =>
    rw [hfa] at he
    dsimp only at he
    by_cases hle : o + n ≤ l.file.length
    · rw [if_pos hle] at he
      cases he
    · rw [if_neg hle] at he
      injection he with h5
      constructor <;> omega

/-- Every result the resolver's loop can return is either success (`0`) or
a negative code other than `-2`. -/
lemma sectnameLoop_ret_classify (l : LoadInfo) (offset : Nat)
    (hf : ∀ o n e, l.failAt o n = some e → e < 0 ∧ e ≠ -2) :
    ∀ fuel buffer buflen bytesread growths trace out,
      (sectnameLoop l offset fuel buffer buflen bytesread growths trace).1 = some out →
      out.ret = 0 ∨ (out.ret < 0 ∧ out.ret ≠ -2) := by
  intro fuel
  induction fuel with
  | zero => intro _ _ _ _ _ out h; cases h
  | succ fuel ih =>
    intro buffer buflen bytesread growths trace out h
    simp only [sectnameLoop] at h
    split at h
    · injection h with h2
      right
      rw [← h2]
      exact ⟨show (-22 : Int) < 0 by decide, show (-22 : Int) ≠ -2 by decide⟩
    · cases hrd : mod_read l
          (if l.filelen < offset + (buflen - bytesread) then l.filelen - offset
            else buflen - bytesread) offset with
      | error e =>
        rw [hrd] at h
        dsimp only at h
        injection h with h2
        right
        rw [← h2]
        exact mod_read_error_classify l hf _ _ e hrd
      | ok chunk =>
        rw [hrd] at h
        dsimp only at h
        split at h
        · injection h with h2
          left
          rw [← h2]
        · exact ih _ _ _ _ _ out h

/-- Every result `mod_sectname` can return is either success (`0`) or a
negative code other than `-2`. -/
lemma mod_sectname_ret_classify (l : LoadInfo) (shdr : Shdr) (fuel : Nat)
    (out : SectOut)
    (hf : ∀ o n e, l.failAt o n = some e → e < 0 ∧ e ≠ -2)
    (h : (mod_sectname l shdr fuel).1 = some out) :
    out.ret = 0 ∨ (out.ret < 0 ∧ out.ret ≠ -2) := by
  rw [mod_sectname] at h
  split at h
  · injection h with h2
    right
    rw [← h2]
    exact ⟨show (-22 : Int) < 0 by decide, show (-22 : Int) ≠ -2 by decide⟩
  · exact sectnameLoop_ret_classify l (offsetOf l shdr) hf fuel _ _ _ _ _ out h

/-- C7: `mod_findsection` reports NotFound (`-ENOENT`) only after every
remaining section index has been resolved successfully and compared without
a match (one trace entry per index, none skipped), and any resolver failure
aborts the scan at once and is propagated as itself — given that injected
reader failures carry negative codes other than `-ENOENT` — so an I/O or
string-table error is never reported as NotFound. -/
theorem mod_findsection_notfound_exhaustive (name : List Nat) (fuel : Nat) :
    ∀ steps l i,
      (∀ o n e, l.failAt o n = some e → e < 0 ∧ e ≠ -2) →
      notFoundExhaustive name (l.e_shnum - i)
        (findAux name fuel steps l i).1 (findAux name fuel steps l i).2 = true ∧
      errorsTerminal name (findAux name fuel steps l i).1
        (findAux name fuel steps l i).2 = true := by
  intro steps
  induction steps with
  | zero =>
    intro l i hf
    simp only [findAux]
    split
    · exact ⟨rfl, rfl⟩
    · next hge =>
      have h0 : l.e_shnum - i = 0 := by omega
      refine ⟨?_, rfl⟩
      simp [notFoundExhaustive, h0]
  | succ steps ih =>
    intro l i hf
    simp only [findAux]
    split
    · next hlt =>
      rcases hms : mod_sectname l (l.shdrs.getD i ⟨0, 0⟩) fuel with ⟨r1, tr2⟩
      cases r1 with
      | none => exact ⟨rfl, rfl⟩
      | some out =>
        have hms1 : (mod_sectname l (l.shdrs.getD i ⟨0, 0⟩) fuel).1 = some out := by
          rw [hms]
        have hcls := mod_sectname_ret_classify l _ fuel out hf hms1
        dsimp only
        by_cases hneg : out.ret < 0
        · rw [if_pos hneg]
          have hne2 : out.ret ≠ -2 := by
            rcases hcls with h0 | ⟨_, hne⟩
            · omega
            · exact hne
          constructor
          · simp [notFoundExhaustive, hne2]
          · simp [errorsTerminal, hneg]
        · rw [if_neg hneg]
          have h0 : out.ret = 0 := by
            rcases hcls with h0 | ⟨hn, _⟩
            · exact h0
            · omega
          by_cases hname : cstring out.buffer = name
          · rw [if_pos hname]
            have hni : (Int.ofNat i) ≠ -2 := by
              show (i : Int) ≠ -2
              omega
            constructor
            · simp [notFoundExhaustive, hni]
            · simp [errorsTerminal, hneg]
          · rw [if_neg hname]
            obtain ⟨ihn, ihe⟩ := ih
              { l with iobuffer := out.buffer, buflen := out.buflen } (i + 1) hf
            have hok : okMismatch name out = true := by
              simp [okMismatch, h0, hname]
            constructor
            · -- exhaustiveness for the extended trace
              cases hr1 : (findAux name fuel steps
                  { l with iobuffer := out.buffer, buflen := out.buflen } (i + 1)).1 with
              | none => simp [notFoundExhaustive, hr1]
              | some fo =>
                rw [hr1] at ihn
                by_cases hfo : fo.ret = -2
                · simp [notFoundExhaustive, hfo] at ihn
                  simp [notFoundExhaustive, hr1, hfo, hok]
                  constructor
                  · omega
                  · exact ihn.2
                · simp [notFoundExhaustive, hr1, hfo]
            · -- error propagation for the extended trace
              cases hr2 : (findAux name fuel steps
                  { l with iobuffer := out.buffer, buflen := out.buflen } (i + 1)).2 with
              | nil =>
                simp [errorsTerminal, hneg]
              | cons a rest =>
                rw [hr2] at ihe
                simp only [errorsTerminal, hok, Bool.true_and]
                exact ihe
    · next hge =>
      have h0 : l.e_shnum - i = 0 := by omega
      refine ⟨?_, rfl⟩
      simp [notFoundExhaustive, h0]

/-- C7 witness: on the healthy two-section session `c7ldi`, searching for
the absent name `x` satisfies both checks. -/
theorem mod_findsection_notfound_exhaustive_witness :
    notFoundExhaustive [120] (c7ldi.e_shnum - 0)
      (findAux [120] 5 c7ldi.e_shnum c7ldi 0).1
      (findAux [120] 5 c7ldi.e_shnum c7ldi 0).2 = true ∧
    errorsTerminal [120] (findAux [120] 5 c7ldi.e_shnum c7ldi 0).1
      (findAux [120] 5 c7ldi.e_shnum c7ldi 0).2 = true :=
  mod_findsection_notfound_exhaustive [120] 5 c7ldi.e_shnum c7ldi 0
    (fun _ _ _ hx => Option.noConfusion hx)
